import Mathlib

/-!
Shallow embedding of `examples/thread_proof.py`, the single script of this
repository.  The script connects to an IMAP server, fetches a range of
messages with the Gmail `X-GM-THRID` extension, parses the fetch reply with
regular expressions into per-message records, groups the records by thread
id, and prints a report.

The embedding below models, faithfully to the source:
  * Python truthiness of optional strings (`None` and `""` are falsy);
  * the `re.search(r"KEY (\d+)", s)` calls: scan the string left to right
    for the literal key followed by a single space and a maximal nonempty
    run of decimal digits, capture the digit run (the code and the regexes
    only deal in ASCII digits in this protocol context);
  * the parsing `while` loop over the fetch-reply list, in which tuple
    items produce one record each and every other item is skipped;
  * header extraction: `email.message_from_bytes(body).get(name, "")`
    is modelled by an association list of header name/value pairs with a
    case-insensitive first-match lookup, used only when the body slot is
    a byte string;
  * the `defaultdict(list)` grouping pass and the multi-message-thread
    report;
  * the control flow of `main` (credential check, select status check,
    empty-mailbox early exit, fetch status check, logout) as a function
    from the abstract server responses to the exit code, the error
    message, whether a fetch was issued, and how often logout ran.
All functions are total; in particular the parser cannot throw.
-/

/-- Python truthiness of an optional string: `None` and the empty string
are falsy, every other string is truthy. -/
def truthyOpt : Option String → Bool
  | none => false
  | some s => !s.isEmpty

/-- The body slot of a fetch tuple: either a byte string whose parsed
header block is the given association list of header name/value pairs
(modelling `email.message_from_bytes`), or a non-bytes value, for which
the script uses empty header fields. -/
inductive Body where
  | bytes (headers : List (String × String)) : Body
  | notBytes : Body
deriving DecidableEq

/-- Lowercasing of a header name, modelling the `str.lower()` call header
matching performs (header names in this protocol are ASCII). -/
def lowerStr (s : String) : String := List.asString (s.toList.map Char.toLower)

/-- Lookup modelling `email.message.Message.get(name, "")`: the value of
the first header whose name matches case-insensitively, defaulting to the
empty string. -/
def hget (headers : List (String × String)) (name : String) : String :=
  match headers with
  | [] => ""
  | (n, v) :: rest => if lowerStr n = lowerStr name then v else hget rest name

/-- Maximal run of decimal digits at the front of the character list,
modelling what a greedy `(\d+)` with nothing after it captures. -/
def digitRun (s : List Char) : List Char := s.takeWhile Char.isDigit

/-- Attempt of the pattern `KEY(\d+)` at the current position: the key
characters (the callers include the literal space in the key) must be a
prefix, followed by at least one decimal digit; the capture is the maximal
digit run. -/
def matchKeyAt (key s : List Char) : Option (List Char) :=
  if key.isPrefixOf s then
    let ds := digitRun (s.drop key.length)
    if ds.isEmpty then none else some ds
  else none

/-- Left-to-right scan of `re.search`: the match attempted at every
position in turn, the first success wins. -/
def reSearch (key : List Char) : List Char → Option (List Char)
  | [] => none
  | c :: rest =>
    match matchKeyAt key (c :: rest) with
    | some ds => some ds
    | none => reSearch key rest

/-- String-level wrapper for the `re.search(r"KEY (\d+)", s)` calls of the
script; `key` carries the trailing space of the pattern. -/
def reFind (key s : String) : Option String :=
  (reSearch key.toList s.toList).map List.asString

/-- One message record, as built by the parsing loop of the script. -/
structure Msg where
  uid : String
  thread_id : Option String
  msg_id : Option String
  subject : String
  from_addr : String
  date : String
deriving DecidableEq

/-- One item of the fetch-reply list `data`: IMAP fetch replies interleave
`(metadata, body)` tuples with other items (such as closing-parenthesis
byte strings), and the loop only looks at the tuples.  The metadata slot is
the string obtained by the total `decode("utf-8", errors="replace")`. -/
inductive FetchItem where
  | pair (metadata_str : String) (body : Body) : FetchItem
  | other : FetchItem
deriving DecidableEq

/-- Record built from one `(metadata, body)` tuple, following lines 85-120
of the script: the three `re.search` extractions with the `"?"` default
for `UID` and `None` defaults for the Gmail fields, then the header
extraction guarded by `isinstance(body, bytes)`. -/
def parseItem (metadata_str : String) (body : Body) : Msg :=
  let uid := match reFind "UID " metadata_str with
    | some d => d
    | none => "?"
  let thread_id := reFind "X-GM-THRID " metadata_str
  let msg_id := reFind "X-GM-MSGID " metadata_str
  match body with
  | Body.bytes headers =>
      { uid := uid, thread_id := thread_id, msg_id := msg_id,
        subject := hget headers "Subject", from_addr := hget headers "From",
        date := hget headers "Date" }
  | Body.notBytes =>
      { uid := uid, thread_id := thread_id, msg_id := msg_id,
        subject := "", from_addr := "", date := "" }

/-- State of the parsing loop: the `messages` list and the two tallies. -/
structure ParseResult where
  messages : List Msg
  thread_extraction_success : Nat
  thread_extraction_failed : Nat
deriving DecidableEq

/-- The parsing `while` loop, one iteration per item of `data`: a tuple
item appends one record and bumps one tally according to the truthiness of
its extracted thread id; any other item only advances the index. -/
def parseGo (acc : ParseResult) : List FetchItem → ParseResult
  | [] => acc
  | item :: rest =>
    match item with
    | FetchItem.pair md body =>
        let m := parseItem md body
        parseGo
          { messages := acc.messages ++ [m],
            thread_extraction_success :=
              if truthyOpt m.thread_id then acc.thread_extraction_success + 1
              else acc.thread_extraction_success,
            thread_extraction_failed :=
              if truthyOpt m.thread_id then acc.thread_extraction_failed
              else acc.thread_extraction_failed + 1 } rest
    | FetchItem.other => parseGo acc rest

/-- Entry point of the parsing loop, starting from the empty state. -/
def parseLoop (data : List FetchItem) : ParseResult :=
  parseGo { messages := [], thread_extraction_success := 0,
            thread_extraction_failed := 0 } data

/-- The record a single item contributes: one per tuple, none otherwise. -/
def itemRecord : FetchItem → Option Msg
  | FetchItem.pair md body => some (parseItem md body)
  | FetchItem.other => none

/-- Whether an item is a `(metadata, body)` tuple. -/
def isPair : FetchItem → Bool
  | FetchItem.pair _ _ => true
  | FetchItem.other => false

/-- Bucket-membership test used by the grouping pass: the record's thread
id is truthy and equals the bucket key (the code keys buckets by the
extracted thread-id string itself). -/
def bucketPred (k : String) (m : Msg) : Bool :=
  truthyOpt m.thread_id && (m.thread_id.getD "" == k)

/-- Appending a record to the bucket for key `k`, modelling
`threads[k].append(msg)` on a `defaultdict(list)`: the existing bucket for
`k` grows at its end, and a missing bucket is created (insertion order of
keys, as in a Python dict). -/
def addToBucket (k : String) (m : Msg) :
    List (String × List Msg) → List (String × List Msg)
  | [] => [(k, [m])]
  | (k2, ms) :: rest =>
    if k2 = k then (k2, ms ++ [m]) :: rest
    else (k2, ms) :: addToBucket k m rest

/-- The grouping pass of the script, lines 147-152: one linear pass over
the records; a truthy thread id sends the record to its bucket, anything
else appends it to the `no_thread` list. -/
def groupGo : List (String × List Msg) × List Msg → List Msg →
    List (String × List Msg) × List Msg
  | acc, [] => acc
  | (ths, nt), m :: rest =>
    if truthyOpt m.thread_id then
      groupGo (addToBucket (m.thread_id.getD "") m ths, nt) rest
    else
      groupGo (ths, nt ++ [m]) rest

/-- Entry point of the grouping pass: returns the pair of the `threads`
buckets and the `no_thread` list. -/
def groupThreads (msgs : List Msg) : List (String × List Msg) × List Msg :=
  groupGo ([], []) msgs

/-- The list comprehension of line 155: the buckets whose member list has
more than one record, in bucket order. -/
def multi_message_threads (ths : List (String × List Msg)) :
    List (String × List Msg) :=
  ths.filter (fun p => decide (1 < p.2.length))

/-- Total size of all buckets. -/
def bucketSizes (ths : List (String × List Msg)) : Nat :=
  (ths.map (fun p => p.2.length)).sum

/-- Abstract view of the server responses the one run consumes: the status
word of `select`, the message count read from its data, the status word of
`fetch` and the fetch-reply list. -/
structure Server where
  selectStatus : String
  num_messages : Nat
  fetchStatus : String
  data : List FetchItem
deriving DecidableEq

/-- Range computation of lines 58-59: `start = max(1, N - limit + 1)` in
unbounded Python integers and the inclusive end `N`. -/
def fetchRange (num_messages : Nat) (limit : Int) : Int × Int :=
  (max 1 ((num_messages : Int) - limit + 1), (num_messages : Int))

/-- Observable outcome of one run of `main`: the returned exit code, the
error line printed on a failure path, whether a fetch command was issued,
the sequence range it used, and how many times `imap.logout()` ran. -/
structure RunResult where
  exitCode : Nat
  errMsg : Option String
  fetchIssued : Bool
  fetchedRange : Option (Int × Int)
  logoutCount : Nat
deriving DecidableEq

/-- Control flow of `main` over the abstract inputs: the credential
truthiness check, the select-status check, the empty-mailbox early return,
the fetch-status check, and otherwise the report path; `logout` runs
exactly on the two `return 0` paths. -/
def runMain (username password : Option String) (mailbox : String)
    (limit : Int) (srv : Server) : RunResult :=
  if !truthyOpt username || !truthyOpt password then
    { exitCode := 1,
      errMsg := some "Error: IMAP_USERNAME and IMAP_PASSWORD environment variables required",
      fetchIssued := false, fetchedRange := none, logoutCount := 0 }
  else if srv.selectStatus ≠ "OK" then
    { exitCode := 1, errMsg := some ("Failed to select " ++ mailbox),
      fetchIssued := false, fetchedRange := none, logoutCount := 0 }
  else if srv.num_messages = 0 then
    { exitCode := 0, errMsg := none, fetchIssued := false,
      fetchedRange := none, logoutCount := 1 }
  else if srv.fetchStatus ≠ "OK" then
    { exitCode := 1, errMsg := some ("Fetch failed: " ++ srv.fetchStatus),
      fetchIssued := true,
      fetchedRange := some (fetchRange srv.num_messages limit),
      logoutCount := 0 }
  else
    { exitCode := 0, errMsg := none, fetchIssued := true,
      fetchedRange := some (fetchRange srv.num_messages limit),
      logoutCount := 1 }


/-! ### Lemmas about the parsing loop -/

/-- Closed form of the parsing loop: starting from any accumulator, it
appends one record per tuple item and adds the counts of truthy and
non-truthy thread ids among those records. -/
theorem parseGo_closed (data : List FetchItem) : ∀ acc : ParseResult,
    parseGo acc data =
      { messages := acc.messages ++ data.filterMap itemRecord,
        thread_extraction_success := acc.thread_extraction_success +
          ((data.filterMap itemRecord).filter
            (fun m => truthyOpt m.thread_id)).length,
        thread_extraction_failed := acc.thread_extraction_failed +
          ((data.filterMap itemRecord).filter
            (fun m => !truthyOpt m.thread_id)).length } := by
  induction data with
  | nil => intro acc; simp [parseGo]
  | cons item rest ih =>
    intro acc
    cases item with
    | other => simpa [parseGo, itemRecord] using ih acc
    | pair md body =>
      simp only [parseGo]
      rw [ih]
      by_cases h : truthyOpt (parseItem md body).thread_id
      · simp [itemRecord, List.filterMap_cons, List.filter_cons, h,
          ParseResult.mk.injEq, List.append_assoc, List.singleton_append]
        omega
      · simp [itemRecord, List.filterMap_cons, List.filter_cons, h,
          ParseResult.mk.injEq, List.append_assoc, List.singleton_append]
        omega

/-- Closed form starting from the empty accumulator. -/
theorem parseLoop_closed (data : List FetchItem) :
    parseLoop data =
      { messages := data.filterMap itemRecord,
        thread_extraction_success :=
          ((data.filterMap itemRecord).filter
            (fun m => truthyOpt m.thread_id)).length,
        thread_extraction_failed :=
          ((data.filterMap itemRecord).filter
            (fun m => !truthyOpt m.thread_id)).length } := by
  rw [parseLoop, parseGo_closed]
  simp

/-- Tuple items are exactly the items that contribute a record. -/
theorem filterMap_itemRecord_length (data : List FetchItem) :
    (data.filterMap itemRecord).length = (data.filter isPair).length := by
  induction data with
  | nil => rfl
  | cons item rest ih =>
    cases item <;>
      simp [itemRecord, isPair, List.filterMap_cons, List.filter_cons, ih]

/-- Dropping the non-tuple items does not change the records. -/
theorem filterMap_itemRecord_filter (data : List FetchItem) :
    (data.filter isPair).filterMap itemRecord = data.filterMap itemRecord := by
  induction data with
  | nil => rfl
  | cons item rest ih =>
    cases item <;>
      simp [itemRecord, isPair, List.filterMap_cons, List.filter_cons, ih]

/-- C2: for every fetch reply, the parsing loop yields exactly one message
record per metadata/header unit (tuple item), in the order the units
appear in the reply: the message list is the in-order image of the tuple
items, and its length is the number of tuple items.  The loop is a total
function of the reply, so no token inside a unit can make it throw. -/
theorem parse_one_record_per_unit (data : List FetchItem) :
    (parseLoop data).messages = data.filterMap itemRecord ∧
    (parseLoop data).messages.length = (data.filter isPair).length := by
  rw [parseLoop_closed]
  exact ⟨rfl, filterMap_itemRecord_length data⟩

/-- C10: a non-tuple item anywhere in the fetch reply is skipped silently,
producing no record and no tally change, and the whole parse result
depends only on the tuple items of the reply, in order. -/
theorem nontuple_items_skipped (xs ys : List FetchItem) :
    parseLoop (xs ++ FetchItem.other :: ys) = parseLoop (xs ++ ys) ∧
    parseLoop (xs ++ ys) = parseLoop ((xs ++ ys).filter isPair) := by
  have h1 : (xs ++ FetchItem.other :: ys).filterMap itemRecord
      = (xs ++ ys).filterMap itemRecord := by
    simp [List.filterMap_append, List.filterMap_cons, itemRecord]
  have h2 : ((xs ++ ys).filter isPair).filterMap itemRecord
      = (xs ++ ys).filterMap itemRecord := filterMap_itemRecord_filter _
  constructor
  · rw [parseLoop_closed, parseLoop_closed, h1]
  · rw [parseLoop_closed, parseLoop_closed, h2]

/-! ### The extracted capture of a successful regex search is nonempty -/

/-- A successful match attempt captures a nonempty digit run. -/
theorem matchKeyAt_ne_nil {key s ds : List Char}
    (h : matchKeyAt key s = some ds) : ds ≠ [] := by
  unfold matchKeyAt at h
  by_cases hp : key.isPrefixOf s
  · simp only [hp, if_true] at h
    by_cases hd : (digitRun (List.drop key.length s)).isEmpty
    · simp [hd] at h
    · simp [hd] at h
      rw [← h]
      simpa [List.isEmpty_iff] using hd
  · simp [hp] at h

/-- A match attempt at the empty suffix always fails: either the key is
not a prefix of the empty list, or there is no digit left to capture. -/
theorem matchKeyAt_nil (key : List Char) : matchKeyAt key [] = none := by
  cases key with
  | nil => rfl
  | cons c cs => rfl

/-- A successful search captures a nonempty digit run. -/
theorem reSearch_ne_nil {key : List Char} :
    ∀ {s ds : List Char}, reSearch key s = some ds → ds ≠ [] := by
  intro s
  induction s with
  | nil => intro ds h; simp [reSearch] at h
  | cons c rest ih =>
    intro ds h
    rcases hm : matchKeyAt key (c :: rest) with _ | ds2 <;>
      rw [reSearch, hm] at h
    · exact ih h
    · cases h
      exact matchKeyAt_ne_nil hm

/-- A successful `reFind` never returns the empty string, so Python
truthiness of the extracted field agrees with presence. -/
theorem truthyOpt_reFind (key s : String) :
    truthyOpt (reFind key s) = (reFind key s).isSome := by
  unfold reFind
  rcases h : reSearch key.toList s.toList with _ | ds
  · rfl
  · have hne : ds ≠ [] := reSearch_ne_nil h
    have hni : (List.asString ds).isEmpty = false := by
      rcases he : (List.asString ds).isEmpty
      · rfl
      · exact absurd (by simpa [String.ext_iff, List.asString]
          using (String.isEmpty_iff _).mp he) hne
    simp [truthyOpt, hni]

/-- Splitting a list of records by presence of the thread id. -/
theorem length_filter_isSome_add (l : List Msg) :
    (l.filter (fun m => m.thread_id.isSome)).length
      + (l.filter (fun m => m.thread_id.isNone)).length = l.length := by
  induction l with
  | nil => rfl
  | cons m rest ih =>
    rcases h : m.thread_id with _ | v <;> simp [List.filter_cons, h] <;> omega

/-- The thread-id field of a record comes from the thread-id search. -/
theorem parseItem_thread_id (md : String) (body : Body) :
    (parseItem md body).thread_id = reFind "X-GM-THRID " md := by
  cases body <;> rfl

/-- C9: after the loop, the two tallies partition the records exactly:
their sum is the number of records, the success tally counts the records
whose thread id is present and the failure tally those whose thread id is
absent. -/
theorem tallies_partition (data : List FetchItem) :
    (parseLoop data).thread_extraction_success
        + (parseLoop data).thread_extraction_failed
      = (parseLoop data).messages.length ∧
    (parseLoop data).thread_extraction_success
      = ((parseLoop data).messages.filter
          (fun m => m.thread_id.isSome)).length ∧
    (parseLoop data).thread_extraction_failed
      = ((parseLoop data).messages.filter
          (fun m => m.thread_id.isNone)).length := by
  have hcong : ∀ m ∈ data.filterMap itemRecord,
      truthyOpt m.thread_id = m.thread_id.isSome := by
    intro m hm
    rcases List.mem_filterMap.mp hm with ⟨item, _, hit⟩
    cases item with
    | other => simp [itemRecord] at hit
    | pair md body =>
      have hmp : m = parseItem md body := by
        simpa [itemRecord] using hit.symm
      rw [hmp, parseItem_thread_id, truthyOpt_reFind]
  have hcong2 : ∀ m ∈ data.filterMap itemRecord,
      (!truthyOpt m.thread_id) = m.thread_id.isNone := by
    intro m hm
    rw [hcong m hm]
    rcases m.thread_id with _ | v <;> rfl
  rw [parseLoop_closed]
  dsimp only
  rw [List.filter_congr hcong, List.filter_congr hcong2]
  exact ⟨length_filter_isSome_add _, rfl, rfl⟩

/-! ### First-occurrence semantics of the regex scan -/

/-- If every position of the string fails to match, the scan fails.  The
positions beyond the string need no hypothesis because a match attempt at
the empty suffix always fails. -/
theorem reSearch_eq_none {key : List Char} :
    ∀ s : List Char, (∀ i < s.length, matchKeyAt key (s.drop i) = none) →
      reSearch key s = none := by
  intro s
  induction s with
  | nil => intro _; rfl
  | cons c rest ih =>
    intro h
    have h0 : matchKeyAt key (c :: rest) = none := h 0 (by simp)
    rw [reSearch, h0]
    exact ih (fun i hi => by
      simpa [List.drop_succ_cons] using h (i + 1) (by simpa using Nat.succ_lt_succ hi))

/-- A successful scan returns the capture of the first matching position:
every strictly earlier position fails to match. -/
theorem reSearch_first {key : List Char} :
    ∀ {s ds : List Char}, reSearch key s = some ds →
      ∃ i, matchKeyAt key (s.drop i) = some ds ∧
        ∀ j < i, matchKeyAt key (s.drop j) = none := by
  intro s
  induction s with
  | nil => intro ds h; simp [reSearch] at h
  | cons c rest ih =>
    intro ds h
    rcases hm : matchKeyAt key (c :: rest) with _ | ds2 <;> rw [reSearch, hm] at h
    · rcases ih h with ⟨i, hi, hj⟩
      refine ⟨i + 1, by simpa [List.drop_succ_cons] using hi, ?_⟩
      intro j hj2
      cases j with
      | zero => simpa using hm
      | succ j2 =>
        simpa [List.drop_succ_cons] using hj j2 (Nat.lt_of_succ_lt_succ hj2)
    · cases h
      exact ⟨0, by simpa using hm, fun j hj => absurd hj (Nat.not_lt_zero j)⟩

/-- The msg-id field of a record comes from the msg-id search. -/
theorem parseItem_msg_id (md : String) (body : Body) :
    (parseItem md body).msg_id = reFind "X-GM-MSGID " md := by
  cases body <;> rfl

/-- The uid field of a record is the uid capture, defaulting to `"?"`. -/
theorem parseItem_uid (md : String) (body : Body) :
    (parseItem md body).uid = (reFind "UID " md).getD "?" := by
  rcases h : reFind "UID " md with _ | d <;> cases body <;> simp [parseItem, h]

/-- C3 fails as stated on the code: on a metadata string lacking the `UID`
key, the uid field of the record is the placeholder string `"?"`, which is
neither empty nor absent. -/
theorem uid_default_counterexample :
    reFind "UID " "2 (X-GM-THRID 1799 X-GM-MSGID 33)" = none ∧
    (parseItem "2 (X-GM-THRID 1799 X-GM-MSGID 33)" Body.notBytes).uid = "?" ∧
    ¬(parseItem "2 (X-GM-THRID 1799 X-GM-MSGID 33)" Body.notBytes).uid = "" := by
  refine ⟨by decide, by decide, by decide⟩

/-- C3 amended: each of the three fields is extracted at the first
position of the metadata string where the key followed by whitespace is
followed by one or more decimal digits, capturing the maximal digit run;
an absent `X-GM-THRID` or `X-GM-MSGID` key leaves its field absent, an
absent `UID` key leaves the placeholder `"?"`, and a unit whose metadata
lacks the thread-id token yields a record with an absent thread id that is
counted as a failed extraction. -/
theorem metadata_extraction_rule (md : String) (body : Body) :
    ((parseItem md body).thread_id = reFind "X-GM-THRID " md ∧
     (parseItem md body).msg_id = reFind "X-GM-MSGID " md ∧
     (parseItem md body).uid = (reFind "UID " md).getD "?") ∧
    (∀ key d, reFind key md = some d →
      ∃ i, matchKeyAt key.toList (md.toList.drop i) = some d.toList ∧
        ∀ j < i, matchKeyAt key.toList (md.toList.drop j) = none) ∧
    (∀ key, (∀ i < md.toList.length,
        matchKeyAt key.toList (md.toList.drop i) = none) →
      reFind key md = none) ∧
    ((parseItem md body).thread_id = none →
      (parseLoop [FetchItem.pair md body]).thread_extraction_failed = 1 ∧
      (parseLoop [FetchItem.pair md body]).thread_extraction_success = 0) := by
  refine ⟨⟨parseItem_thread_id md body, parseItem_msg_id md body,
    parseItem_uid md body⟩, ?_, ?_, ?_⟩
  · intro key d h
    unfold reFind at h
    rcases hs : reSearch key.toList md.toList with _ | ds <;> rw [hs] at h
    · cases h
    · have hd : List.asString ds = d := by simpa using h
      subst hd
      exact reSearch_first hs
  · intro key h
    unfold reFind
    rw [reSearch_eq_none md.toList h]
    rfl
  · intro h
    simp [parseLoop, parseGo, h, truthyOpt]

/-- Concrete run of the amended extraction rule: the sample metadata
`"2 (UID 7)"` lacks the thread-id token, yields a failed extraction, and
its uid capture `"7"` comes from the first matching position. -/
theorem metadata_extraction_rule_witness :
    reFind "X-GM-THRID " "2 (UID 7)" = none ∧
    (parseLoop [FetchItem.pair "2 (UID 7)" Body.notBytes]).thread_extraction_failed = 1 ∧
    (∃ i, matchKeyAt "UID ".toList ("2 (UID 7)".toList.drop i) = some "7".toList ∧
      ∀ j < i, matchKeyAt "UID ".toList ("2 (UID 7)".toList.drop j) = none) := by
  refine ⟨?_, ?_, ?_⟩
  · exact (metadata_extraction_rule "2 (UID 7)" Body.notBytes).2.2.1
      "X-GM-THRID " (by decide)
  · exact ((metadata_extraction_rule "2 (UID 7)" Body.notBytes).2.2.2
      (by decide)).1
  · exact (metadata_extraction_rule "2 (UID 7)" Body.notBytes).2.1
      "UID " "7" (by decide)

/-! ### Header extraction and the control flow of main -/

/-- C7: the subject, sender and date fields of a record come from the
`Subject`, `From` and `Date` headers of the header block of its unit, and
each defaults to the empty string when the body is not a byte string or
when the particular header is missing from the block. -/
theorem header_fields (md : String) (headers : List (String × String)) :
    ((parseItem md (Body.bytes headers)).subject = hget headers "Subject" ∧
     (parseItem md (Body.bytes headers)).from_addr = hget headers "From" ∧
     (parseItem md (Body.bytes headers)).date = hget headers "Date") ∧
    ((parseItem md Body.notBytes).subject = "" ∧
     (parseItem md Body.notBytes).from_addr = "" ∧
     (parseItem md Body.notBytes).date = "") ∧
    (∀ name, (∀ q ∈ headers, lowerStr q.1 ≠ lowerStr name) →
      hget headers name = "") := by
  refine ⟨⟨rfl, rfl, rfl⟩, ⟨rfl, rfl, rfl⟩, ?_⟩
  intro name h
  induction headers with
  | nil => rfl
  | cons q rest ih =>
    obtain ⟨n, v⟩ := q
    simp only [hget]
    rw [if_neg (h (n, v) (List.mem_cons_self _ _))]
    exact ih (fun q2 hq => h q2 (List.mem_cons_of_mem _ hq))

/-- Concrete run of the header-extraction rule: a missing Subject header
defaults to the empty string; a present one is returned. -/
theorem header_fields_witness :
    hget [("From", "alice@example.com")] "Subject" = "" ∧
    (parseItem "1 (UID 2)" (Body.bytes [("Subject", "hi")])).subject = "hi" := by
  constructor
  · exact (header_fields "1 (UID 2)" [("From", "alice@example.com")]).2.2
      "Subject" (by decide)
  · rw [(header_fields "1 (UID 2)" [("Subject", "hi")]).1.1]
    simp [hget]

/-- C4: the fetched range is `start = max(1, N - L + 1)` with inclusive
end `N`; for `N ≥ 1` and positive `L` it satisfies `start ≤ end`;
`N = 10, L = 50` gives `1..10` and `N = 200, L = 50` gives `151..200`;
and a run that selects an empty mailbox issues no fetch and exits 0. -/
theorem range_selection (N : Nat) (L : Int) (u p : Option String)
    (mb : String) (srv : Server) :
    fetchRange N L = (max 1 ((N : Int) - L + 1), (N : Int)) ∧
    (1 ≤ N → 1 ≤ L → (fetchRange N L).1 ≤ (fetchRange N L).2) ∧
    fetchRange 10 50 = (1, 10) ∧
    fetchRange 200 50 = (151, 200) ∧
    (truthyOpt u = true → truthyOpt p = true → srv.selectStatus = "OK" →
      srv.num_messages = 0 →
      (runMain u p mb L srv).fetchIssued = false ∧
      (runMain u p mb L srv).exitCode = 0) := by
  refine ⟨rfl, ?_, by decide, by decide, ?_⟩
  · intro h1 h2
    simp only [fetchRange]
    apply max_le
    · exact_mod_cast h1
    · omega
  · intro hu hp hsel hn
    simp [runMain, hu, hp, hsel, hn]

/-- Concrete run of the range-selection rule at `N = 10, L = 50` and at an
empty mailbox. -/
theorem range_selection_witness :
    (fetchRange 10 50).1 ≤ (fetchRange 10 50).2 ∧
    (runMain (some "u") (some "pw") "INBOX" 50
        (Server.mk "OK" 0 "OK" [])).fetchIssued = false ∧
    (runMain (some "u") (some "pw") "INBOX" 50
        (Server.mk "OK" 0 "OK" [])).exitCode = 0 := by
  refine ⟨?_, ?_, ?_⟩
  · exact (range_selection 10 50 (some "u") (some "pw") "INBOX"
      (Server.mk "OK" 0 "OK" [])).2.1 (by decide) (by decide)
  · exact ((range_selection 10 50 (some "u") (some "pw") "INBOX"
      (Server.mk "OK" 0 "OK" [])).2.2.2.2 (by decide) (by decide) rfl rfl).1
  · exact ((range_selection 10 50 (some "u") (some "pw") "INBOX"
      (Server.mk "OK" 0 "OK" [])).2.2.2.2 (by decide) (by decide) rfl rfl).2

/-- C6: the run exits 1 with an explanatory message when a credential is
missing (falsy), when selection returns a non-OK status, or when the
fetch returns a non-OK status; it exits 0 on every normal completion,
including the empty mailbox. -/
theorem exit_behavior (u p : Option String) (mb : String) (L : Int)
    (srv : Server) :
    (¬(truthyOpt u = true ∧ truthyOpt p = true) →
      (runMain u p mb L srv).exitCode = 1 ∧
      (runMain u p mb L srv).errMsg.isSome = true) ∧
    (truthyOpt u = true → truthyOpt p = true → srv.selectStatus ≠ "OK" →
      (runMain u p mb L srv).exitCode = 1 ∧
      (runMain u p mb L srv).errMsg.isSome = true) ∧
    (truthyOpt u = true → truthyOpt p = true → srv.selectStatus = "OK" →
      srv.num_messages ≠ 0 → srv.fetchStatus ≠ "OK" →
      (runMain u p mb L srv).exitCode = 1 ∧
      (runMain u p mb L srv).errMsg.isSome = true) ∧
    (truthyOpt u = true → truthyOpt p = true → srv.selectStatus = "OK" →
      (srv.num_messages = 0 ∨ srv.fetchStatus = "OK") →
      (runMain u p mb L srv).exitCode = 0) := by
  refine ⟨?_, ?_, ?_, ?_⟩
  · intro h
    by_cases hu : truthyOpt u = true
    · by_cases hp2 : truthyOpt p = true
      · exact absurd ⟨hu, hp2⟩ h
      · have hp3 : truthyOpt p = false := by simpa using hp2
        simp [runMain, hu, hp3]
    · have hu3 : truthyOpt u = false := by simpa using hu
      simp [runMain, hu3]
  · intro hu hp2 hsel
    simp [runMain, hu, hp2, hsel]
  · intro hu hp2 hsel hn hf
    simp [runMain, hu, hp2, hsel, hn, hf]
  · intro hu hp2 hsel hd
    rcases hd with hn | hf
    · simp [runMain, hu, hp2, hsel, hn]
    · by_cases hn : srv.num_messages = 0
      · simp [runMain, hu, hp2, hsel, hn]
      · simp [runMain, hu, hp2, hsel, hn, hf]

/-- Concrete runs exercising all four exit-behavior clauses. -/
theorem exit_behavior_witness :
    (runMain none (some "pw") "INBOX" 50
      (Server.mk "OK" 1 "OK" [])).exitCode = 1 ∧
    (runMain (some "u") (some "pw") "INBOX" 50
      (Server.mk "NO" 1 "OK" [])).exitCode = 1 ∧
    (runMain (some "u") (some "pw") "INBOX" 50
      (Server.mk "OK" 1 "NO" [])).exitCode = 1 ∧
    (runMain (some "u") (some "pw") "INBOX" 50
      (Server.mk "OK" 5 "OK" [])).exitCode = 0 := by
  refine ⟨?_, ?_, ?_, ?_⟩
  · exact ((exit_behavior none (some "pw") "INBOX" 50
      (Server.mk "OK" 1 "OK" [])).1 (by decide)).1
  · exact ((exit_behavior (some "u") (some "pw") "INBOX" 50
      (Server.mk "NO" 1 "OK" [])).2.1 (by decide) (by decide) (by decide)).1
  · exact ((exit_behavior (some "u") (some "pw") "INBOX" 50
      (Server.mk "OK" 1 "NO" [])).2.2.1 (by decide) (by decide) rfl
      (by decide) (by decide)).1
  · exact (exit_behavior (some "u") (some "pw") "INBOX" 50
      (Server.mk "OK" 5 "OK" [])).2.2.2 (by decide) (by decide) rfl
      (Or.inr rfl)

/-- C8: logout runs only on the success paths: a non-OK selection or
fetch status returns early with no logout call, and every path that
returns 0 calls logout (exactly once) before returning. -/
theorem logout_only_on_success (u p : Option String) (mb : String)
    (L : Int) (srv : Server) :
    (srv.selectStatus ≠ "OK" → (runMain u p mb L srv).logoutCount = 0) ∧
    (srv.num_messages ≠ 0 → srv.fetchStatus ≠ "OK" →
      (runMain u p mb L srv).logoutCount = 0) ∧
    ((runMain u p mb L srv).exitCode = 0 →
      (runMain u p mb L srv).logoutCount = 1) := by
  refine ⟨?_, ?_, ?_⟩
  · intro hsel
    by_cases hc : (!truthyOpt u || !truthyOpt p) = true
    · simp [runMain, hc]
    · simp [runMain, hc, hsel]
  · intro hn hf
    by_cases hc : (!truthyOpt u || !truthyOpt p) = true
    · simp [runMain, hc]
    · by_cases hsel : srv.selectStatus = "OK"
      · simp [runMain, hc, hsel, hn, hf]
      · simp [runMain, hc, hsel]
  · intro h0
    by_cases hc : (!truthyOpt u || !truthyOpt p) = true
    · simp [runMain, hc] at h0
    · by_cases hsel : srv.selectStatus = "OK"
      · by_cases hn : srv.num_messages = 0
        · simp [runMain, hc, hsel, hn]
        · by_cases hf : srv.fetchStatus = "OK"
          · simp [runMain, hc, hsel, hn, hf]
          · simp [runMain, hc, hsel, hn, hf] at h0
      · simp [runMain, hc, hsel] at h0

/-- Concrete runs exercising the three logout clauses. -/
theorem logout_only_on_success_witness :
    (runMain (some "u") (some "pw") "INBOX" 50
      (Server.mk "NO" 3 "OK" [])).logoutCount = 0 ∧
    (runMain (some "u") (some "pw") "INBOX" 50
      (Server.mk "OK" 3 "BAD" [])).logoutCount = 0 ∧
    (runMain (some "u") (some "pw") "INBOX" 50
      (Server.mk "OK" 3 "OK" [])).logoutCount = 1 := by
  refine ⟨?_, ?_, ?_⟩
  · exact (logout_only_on_success (some "u") (some "pw") "INBOX" 50
      (Server.mk "NO" 3 "OK" [])).1 (by decide)
  · exact (logout_only_on_success (some "u") (some "pw") "INBOX" 50
      (Server.mk "OK" 3 "BAD" [])).2.1 (by decide) (by decide)
  · exact (logout_only_on_success (some "u") (some "pw") "INBOX" 50
      (Server.mk "OK" 3 "OK" [])).2.2 (by decide)

/-! ### Lemmas about the grouping pass -/

/-- A truthy record belongs to the bucket keyed by its own thread id. -/
theorem bucketPred_self {m : Msg} (h : truthyOpt m.thread_id = true) :
    bucketPred (m.thread_id.getD "") m = true := by
  simp [bucketPred, h]

/-- A record never satisfies the membership test of a foreign key. -/
theorem bucketPred_ne {m : Msg} {k : String} (h : m.thread_id.getD "" ≠ k) :
    bucketPred k m = false := by
  simp [bucketPred, h]

/-- A non-truthy record satisfies no bucket-membership test. -/
theorem bucketPred_not_truthy {m : Msg} {k : String}
    (h : truthyOpt m.thread_id = false) : bucketPred k m = false := by
  simp [bucketPred, h]

/-- Keys after adding to a bucket: unchanged when the key is already
present, extended at the end when it is new. -/
theorem addToBucket_map_fst (k : String) (m : Msg) :
    ∀ ths : List (String × List Msg),
      (addToBucket k m ths).map Prod.fst =
        if k ∈ ths.map Prod.fst then ths.map Prod.fst
        else ths.map Prod.fst ++ [k] := by
  intro ths
  induction ths with
  | nil => simp [addToBucket]
  | cons q rest ih =>
    obtain ⟨k2, ms⟩ := q
    by_cases h : k2 = k
    · subst h
      simp [addToBucket]
    · simp only [addToBucket, if_neg h, List.map_cons]
      rw [ih]
      by_cases hmem : k ∈ rest.map Prod.fst
      · simp [List.mem_cons, hmem, Ne.symm h]
      · simp [List.mem_cons, hmem, Ne.symm h, List.cons_append]

/-- Adding to a bucket keeps the keys free of duplicates. -/
theorem addToBucket_nodup {k : String} {m : Msg}
    {ths : List (String × List Msg)} (h : (ths.map Prod.fst).Nodup) :
    ((addToBucket k m ths).map Prod.fst).Nodup := by
  rw [addToBucket_map_fst]
  by_cases hmem : k ∈ ths.map Prod.fst
  · simpa [hmem] using h
  · simp only [hmem, if_false]
    simp [List.nodup_append, List.disjoint_singleton, h, hmem]

/-- Every old key, and the key added to, is a key after adding. -/
theorem mem_addToBucket_map_fst {a k : String} (m : Msg)
    (ths : List (String × List Msg)) (h : a ∈ ths.map Prod.fst ∨ a = k) :
    a ∈ (addToBucket k m ths).map Prod.fst := by
  rw [addToBucket_map_fst]
  by_cases hmem : k ∈ ths.map Prod.fst
  · simp only [hmem, if_true]
    rcases h with h | h
    · exact h
    · subst h; exact hmem
  · simp only [hmem, if_false]
    rcases h with h | h
    · exact List.mem_append_left _ h
    · subst h; exact List.mem_append_right _ (List.mem_singleton.mpr rfl)

/-- Shape of every bucket after adding: buckets with a foreign key are
untouched, and the bucket with key `k` is the old one (or the empty one,
when the key is new) with the record appended. -/
theorem addToBucket_spec {k : String} {m : Msg} :
    ∀ {ths : List (String × List Msg)}, (ths.map Prod.fst).Nodup →
      ∀ p ∈ addToBucket k m ths,
        (p.1 ≠ k ∧ p ∈ ths) ∨
        (p.1 = k ∧
          ((∃ ms, (k, ms) ∈ ths ∧ p.2 = ms ++ [m]) ∨
           (k ∉ ths.map Prod.fst ∧ p.2 = [m]))) := by
  intro ths
  induction ths with
  | nil =>
    intro _ p hp
    simp only [addToBucket] at hp
    rcases List.mem_singleton.mp hp with rfl
    exact Or.inr ⟨rfl, Or.inr ⟨by simp, rfl⟩⟩
  | cons q rest ih =>
    intro hnd p hp
    obtain ⟨k2, ms⟩ := q
    rw [List.map_cons, List.nodup_cons] at hnd
    obtain ⟨hk2, hnd2⟩ := hnd
    by_cases h : k2 = k
    · subst h
      simp only [addToBucket, if_pos rfl] at hp
      rcases List.mem_cons.mp hp with rfl | hp2
      · exact Or.inr ⟨rfl, Or.inl ⟨ms, List.mem_cons_self _ _, rfl⟩⟩
      · by_cases hpk : p.1 = k2
        · refine absurd ?_ hk2
          rw [← hpk]
          exact List.mem_map.mpr ⟨p, hp2, rfl⟩
        · exact Or.inl ⟨hpk, List.mem_cons_of_mem _ hp2⟩
    · simp only [addToBucket, if_neg h] at hp
      rcases List.mem_cons.mp hp with rfl | hp2
      · exact Or.inl ⟨h, List.mem_cons_self _ _⟩
      · rcases ih hnd2 p hp2 with ⟨hne, hmem⟩ | ⟨heq, hcase⟩
        · exact Or.inl ⟨hne, List.mem_cons_of_mem _ hmem⟩
        · refine Or.inr ⟨heq, ?_⟩
          rcases hcase with ⟨ms2, hm2, hp2eq⟩ | ⟨hnot, hp2eq⟩
          · exact Or.inl ⟨ms2, List.mem_cons_of_mem _ hm2, hp2eq⟩
          · refine Or.inr ⟨?_, hp2eq⟩
            simp only [List.map_cons, List.mem_cons]
            rintro (hk | hk)
            · exact h hk.symm
            · exact hnot hk

/-- A key absent from the buckets has an empty trace in the processed
records, provided every truthy processed record is covered by a key. -/
theorem filter_bucketPred_nil {done : List Msg}
    {ths : List (String × List Msg)} {k : String}
    (hcov : ∀ m ∈ done, truthyOpt m.thread_id = true →
      m.thread_id.getD "" ∈ ths.map Prod.fst)
    (hk : k ∉ ths.map Prod.fst) :
    done.filter (fun m => bucketPred k m) = [] := by
  rw [List.filter_eq_nil_iff]
  intro m hm hpred
  have h2 : truthyOpt m.thread_id = true ∧ m.thread_id.getD "" = k := by
    simpa [bucketPred] using hpred
  exact hk (h2.2 ▸ hcov m hm h2.1)

/-- Under distinct keys, entries with the same key are the same entry. -/
theorem entry_eq_of_fst_eq :
    ∀ {ths : List (String × List Msg)}, (ths.map Prod.fst).Nodup →
      ∀ {p q : String × List Msg}, p ∈ ths → q ∈ ths → p.1 = q.1 → p = q := by
  intro ths
  induction ths with
  | nil => intro _ p q hp; simp at hp
  | cons a rest ih =>
    intro hnd p q hp hq hpq
    rw [List.map_cons, List.nodup_cons] at hnd
    obtain ⟨ha, hnd2⟩ := hnd
    rcases List.mem_cons.mp hp with rfl | hp2 <;>
      rcases List.mem_cons.mp hq with rfl | hq2
    · rfl
    · refine absurd ?_ ha
      rw [hpq]
      exact List.mem_map.mpr ⟨q, hq2, rfl⟩
    · refine absurd ?_ ha
      rw [← hpq]
      exact List.mem_map.mpr ⟨p, hp2, rfl⟩
    · exact ih hnd2 hp2 hq2 hpq

/-- Invariant of the grouping pass: if the accumulator already reflects a
processed prefix `done` (distinct keys, every bucket is the trace of its
key over `done`, the no-thread list is the trace of the non-truthy
records, and every truthy processed record has its key present), then
running the pass over the remaining records reflects `done ++ msgs`. -/
theorem groupGo_spec (msgs : List Msg) :
    ∀ (done : List Msg) (ths : List (String × List Msg)) (nt : List Msg),
      (ths.map Prod.fst).Nodup →
      (∀ p ∈ ths, p.2 = done.filter (fun m => bucketPred p.1 m)) →
      nt = done.filter (fun m => !truthyOpt m.thread_id) →
      (∀ m ∈ done, truthyOpt m.thread_id = true →
        m.thread_id.getD "" ∈ ths.map Prod.fst) →
      (((groupGo (ths, nt) msgs).1.map Prod.fst).Nodup ∧
       (∀ p ∈ (groupGo (ths, nt) msgs).1,
         p.2 = (done ++ msgs).filter (fun m => bucketPred p.1 m)) ∧
       (groupGo (ths, nt) msgs).2
         = (done ++ msgs).filter (fun m => !truthyOpt m.thread_id) ∧
       (∀ m ∈ done ++ msgs, truthyOpt m.thread_id = true →
         m.thread_id.getD "" ∈ (groupGo (ths, nt) msgs).1.map Prod.fst)) := by
  induction msgs with
  | nil =>
    intro done ths nt hnd hb hnt hcov
    rw [List.append_nil]
    exact ⟨hnd, hb, hnt, hcov⟩
  | cons m rest ih =>
    intro done ths nt hnd hb hnt hcov
    by_cases hm : truthyOpt m.thread_id = true
    · have hstep : groupGo (ths, nt) (m :: rest)
          = groupGo (addToBucket (m.thread_id.getD "") m ths, nt) rest := by
        simp [groupGo, hm]
      have hb2 : ∀ p ∈ addToBucket (m.thread_id.getD "") m ths,
          p.2 = (done ++ [m]).filter (fun x => bucketPred p.1 x) := by
        intro p hp
        rcases addToBucket_spec hnd p hp with ⟨hne, hmem⟩ | ⟨heq, hcase⟩
        · have hf : bucketPred p.1 m = false := bucketPred_ne (Ne.symm hne)
          rw [hb p hmem, List.filter_append]
          simp [List.filter_cons, hf]
        · rcases hcase with ⟨ms2, hmem2, hp2⟩ | ⟨hnot, hp2⟩
          · rw [hp2, heq]
            have hms2 : ms2 = done.filter
                (fun x => bucketPred (m.thread_id.getD "") x) := hb _ hmem2
            rw [hms2, List.filter_append]
            simp [List.filter_cons, bucketPred_self hm]
          · rw [hp2, heq, List.filter_append,
              filter_bucketPred_nil hcov hnot]
            simp [List.filter_cons, bucketPred_self hm]
      have hnt2 : nt = (done ++ [m]).filter
          (fun x => !truthyOpt x.thread_id) := by
        rw [hnt, List.filter_append]
        simp [List.filter_cons, hm]
      have hcov2 : ∀ x ∈ done ++ [m], truthyOpt x.thread_id = true →
          x.thread_id.getD ""
            ∈ (addToBucket (m.thread_id.getD "") m ths).map Prod.fst := by
        intro x hx ht
        rcases List.mem_append.mp hx with hx | hx
        · exact mem_addToBucket_map_fst _ _ (Or.inl (hcov x hx ht))
        · rcases List.mem_singleton.mp hx with rfl
          exact mem_addToBucket_map_fst _ _ (Or.inr rfl)
      rw [hstep, List.append_cons done m rest]
      exact ih (done ++ [m]) _ nt (addToBucket_nodup hnd) hb2 hnt2 hcov2
    · have hm2 : truthyOpt m.thread_id = false := by simpa using hm
      have hstep : groupGo (ths, nt) (m :: rest)
          = groupGo (ths, nt ++ [m]) rest := by
        simp [groupGo, hm2]
      have hb2 : ∀ p ∈ ths,
          p.2 = (done ++ [m]).filter (fun x => bucketPred p.1 x) := by
        intro p hp
        rw [hb p hp, List.filter_append]
        simp [List.filter_cons, bucketPred_not_truthy hm2]
      have hnt2 : nt ++ [m] = (done ++ [m]).filter
          (fun x => !truthyOpt x.thread_id) := by
        rw [hnt, List.filter_append]
        simp [List.filter_cons, hm2]
      have hcov2 : ∀ x ∈ done ++ [m], truthyOpt x.thread_id = true →
          x.thread_id.getD "" ∈ ths.map Prod.fst := by
        intro x hx ht
        rcases List.mem_append.mp hx with hx | hx
        · exact hcov x hx ht
        · rcases List.mem_singleton.mp hx with rfl
          rw [ht] at hm2
          cases hm2
      rw [hstep, List.append_cons done m rest]
      exact ih (done ++ [m]) ths _ hnd hb2 hnt2 hcov2

/-- Adding a record to a bucket grows the total bucket size by one. -/
theorem addToBucket_sizes (k : String) (m : Msg) :
    ∀ ths : List (String × List Msg),
      bucketSizes (addToBucket k m ths) = bucketSizes ths + 1 := by
  intro ths
  induction ths with
  | nil => simp [addToBucket, bucketSizes]
  | cons q rest ih =>
    obtain ⟨k2, ms⟩ := q
    by_cases h : k2 = k
    · subst h
      simp [addToBucket, bucketSizes]
      omega
    · simp only [addToBucket, if_neg h]
      simp only [bucketSizes, List.map_cons, List.sum_cons] at *
      omega

/-- The grouping pass conserves the record count: total bucket size plus
the no-thread count grows by exactly the number of processed records. -/
theorem groupGo_sizes (msgs : List Msg) :
    ∀ (ths : List (String × List Msg)) (nt : List Msg),
      bucketSizes (groupGo (ths, nt) msgs).1
          + (groupGo (ths, nt) msgs).2.length
        = bucketSizes ths + nt.length + msgs.length := by
  induction msgs with
  | nil => intro ths nt; simp [groupGo]
  | cons m rest ih =>
    intro ths nt
    by_cases hm : truthyOpt m.thread_id = true
    · have hstep : groupGo (ths, nt) (m :: rest)
          = groupGo (addToBucket (m.thread_id.getD "") m ths, nt) rest := by
        simp [groupGo, hm]
      rw [hstep, ih, addToBucket_sizes]
      simp
      omega
    · have hm2 : truthyOpt m.thread_id = false := by simpa using hm
      have hstep : groupGo (ths, nt) (m :: rest)
          = groupGo (ths, nt ++ [m]) rest := by
        simp [groupGo, hm2]
      rw [hstep, ih]
      simp
      omega

/-- C1: the grouping step is a total partition: total bucket size plus
the no-thread count equals the record count; bucket keys are distinct;
every bucket is exactly the in-order trace of the records carrying its
key; the no-thread list is exactly the in-order trace of the records with
a falsy thread id; every record with a truthy (non-empty) thread id lies
in exactly one bucket, the bucket keyed by its own thread id; and a
bucket never contains a record with a falsy thread id, so no bucket keyed
by a sentinel value exists. -/
theorem thread_grouping_partition (msgs : List Msg) :
    (bucketSizes (groupThreads msgs).1 + (groupThreads msgs).2.length
      = msgs.length) ∧
    ((groupThreads msgs).1.map Prod.fst).Nodup ∧
    (∀ p ∈ (groupThreads msgs).1,
      p.2 = msgs.filter (fun m => bucketPred p.1 m)) ∧
    ((groupThreads msgs).2
      = msgs.filter (fun m => !truthyOpt m.thread_id)) ∧
    (∀ m ∈ msgs, truthyOpt m.thread_id = true →
      ∃! p, p ∈ (groupThreads msgs).1 ∧ m ∈ p.2
        ∧ p.1 = m.thread_id.getD "") ∧
    (∀ m : Msg, ∀ p ∈ (groupThreads msgs).1, m ∈ p.2 →
      truthyOpt m.thread_id = true ∧ m.thread_id.getD "" = p.1) := by
  obtain ⟨hnd, hb, hnt, hcov⟩ := groupGo_spec msgs [] [] []
    (by simp)
    (by intro p hp; exact absurd hp (List.not_mem_nil p))
    rfl
    (by intro m hm; exact absurd hm (List.not_mem_nil m))
  refine ⟨?_, hnd, hb, hnt, ?_, ?_⟩
  · have hs := groupGo_sizes msgs [] []
    simpa [bucketSizes, groupThreads] using hs
  · intro m hm ht
    have hkey := hcov m hm ht
    rcases List.mem_map.mp hkey with ⟨p, hp, hpk⟩
    refine ⟨p, ⟨hp, ?_, hpk⟩, ?_⟩
    · rw [hb p hp]
      refine List.mem_filter.mpr ⟨hm, ?_⟩
      rw [hpk]
      exact bucketPred_self ht
    · rintro q ⟨hq, hmq, hqk⟩
      exact entry_eq_of_fst_eq hnd hq hp (by rw [hqk, hpk])
  · intro m p hp hmp
    rw [hb p hp] at hmp
    have h2 := List.mem_filter.mp hmp
    simpa [bucketPred] using h2.2

/-- C5: a bucket of the grouping result is reported among the
multi-message threads exactly when it holds more than one record, so the
reported count is the number of buckets with more than one record. -/
theorem multi_message_threads_spec (msgs : List Msg) :
    (∀ p, p ∈ multi_message_threads (groupThreads msgs).1 ↔
      (p ∈ (groupThreads msgs).1 ∧ 1 < p.2.length)) ∧
    (multi_message_threads (groupThreads msgs).1).length
      = (groupThreads msgs).1.countP (fun p => decide (1 < p.2.length)) := by
  constructor
  · intro p
    simp [multi_message_threads, List.mem_filter]
  · rw [multi_message_threads, List.countP_eq_length_filter]
